import Mathlib

/-!
Verification of the document-ingestion / AI-extraction pipeline of the
"Trackly" job-and-scholarship tracker (a Django application).

The development shallowly embeds the pure logic of:

* the per-user knowledge merge performed by `generate_response_task`
  (`tracker/tasks.py`): folding `ExtractedInformation` records, ordered
  newest-first, into a single profile dictionary;
* the document parser dispatch of `DocumentParser.parse_document`
  (`services/document_parser.py`), including the Python
  `os.path.splitext` extension computation and the per-format
  sub-parsers with the external library results abstracted as inputs;
* the Gemini client response handling of
  `GeminiService.extract_questions_from_content` and
  `GeminiService.extract_document_information`
  (`services/gemini_service.py`), with `json.loads` and the network call
  abstracted as parameters, and the prompt construction of both methods;
* the `exponential_backoff_retry` decorator (`core/tasks.py`) over a
  model of Celery's documented retry semantics;
* the control flow of `process_document_task` (`documents/tasks.py`).

Python dictionaries are modelled as insertion-ordered association lists,
`datetime` values as natural numbers (larger = later), and JSON values by
the minimal type distinctions the code actually inspects
(`isinstance(content, list)` / `isinstance(content, str)`).
-/

/-- An element of a JSON list stored in an `ExtractedInformation.content`
field: either a plain string (skills, certifications, languages) or a
JSON object (education, experience, projects entries), modelled as a
field association list. -/
inductive Item where
  | str (s : String)
  | obj (fields : List (String × String))
deriving DecidableEq, Repr

/-- A JSON value stored in an `ExtractedInformation.content` JSONField,
at the granularity the merge loop of `generate_response_task` inspects:
it only distinguishes Python `list`, Python `str`, and everything else
(`isinstance` checks). -/
inductive Content where
  | str (s : String)
  | list (xs : List Item)
  | other
deriving DecidableEq, Repr

/-- One `ExtractedInformation` database row, with the fields read by
`generate_response_task`: the owning user (via `document__user`), the
extraction timestamp used by `order_by('-extracted_at')`, the
`data_type` discriminator and the JSON `content`. -/
structure ExtractedInfo where
  user : Nat
  extracted_at : Nat
  data_type : String
  content : Content
deriving DecidableEq, Repr

/-- Python `dict` lookup on the insertion-ordered association list that
models the `user_info` dictionary. -/
def lookupDT : List (String × Content) → String → Option Content
  | [], _ => none
  | (k, v) :: rest, d => if k = d then some v else lookupDT rest d

/-- Python `dict` assignment `user_info[d] = c`: replaces the value of an
existing key in place, appends a new key at the end (insertion order). -/
def setDT : List (String × Content) → String → Content → List (String × Content)
  | [], d, c => [(d, c)]
  | (k, v) :: rest, d, c =>
      if k = d then (k, c) :: rest else (k, v) :: setDT rest d c

/-- The simple list types deduplicated by the merge, from the literal
`['skills', 'certifications', 'languages']` in `generate_response_task`. -/
def simpleListTypes : List String := ["skills", "certifications", "languages"]

/-- Python hashability of a JSON list element: strings are hashable,
dicts (`Item.obj`) are not, so `set()` raises `TypeError` on them. -/
def pyHashable : Item → Bool
  | .str _ => true
  | .obj _ => false

/-- The merge of a new fragment `content` into the already-collected value
`existing` for one `data_type`, translated from the `else` branch of the
loop body in `generate_response_task`:

* two lists: deduplicate (`list(set(existing + content))`) for the simple
  types, concatenate (`existing + content`) otherwise;
* two strings: for `'summary'` join with a blank line
  (`f"{existing}\n\n{content}"`), otherwise keep `existing` (the more
  recently extracted value, since records are iterated newest-first);
* any other combination: keep `existing` unchanged.

`list(set(existing + content))` raises `TypeError` when any element of
the concatenation is unhashable (a dict), and the exception propagates
out of `generate_response_task`; that error path is `none`. When all
elements are hashable, Python's `set` yields the distinct elements in an
unspecified order, modelled by the deterministic `List.dedup`, which
also yields exactly the distinct elements. -/
def mergeContent (data_type : String) (existing content : Content) : Option Content :=
  match content, existing with
  | .list c, .list e =>
      if data_type ∈ simpleListTypes then
        if (e ++ c).all pyHashable then some (.list ((e ++ c).dedup)) else none
      else some (.list (e ++ c))
  | .str c, .str e =>
      if data_type = "summary" then some (.str (e ++ "\n\n" ++ c)) else some (.str e)
  | _, _ => some existing

/-- One iteration of the `for info in extracted_info` loop of
`generate_response_task`: first occurrence of a `data_type` is stored
as-is, later occurrences are merged via `mergeContent`; `none` is the
`TypeError` raised by a simple-list merge over unhashable elements. -/
def mergeStep (user_info : List (String × Content)) (r : ExtractedInfo) :
    Option (List (String × Content)) :=
  match lookupDT user_info r.data_type with
  | none => some (setDT user_info r.data_type r.content)
  | some existing =>
      (mergeContent r.data_type existing r.content).map (setDT user_info r.data_type)

/-- The whole merge loop: fold `mergeStep` over the records in iteration
order, starting from the empty `user_info = {}`; `none` means the loop
raised and `generate_response_task` never built a profile. -/
def buildUserInfo (records : List ExtractedInfo) : Option (List (String × Content)) :=
  records.foldlM mergeStep []

/-- The ordering of `order_by('-extracted_at')`: later extraction
timestamps come first. -/
def recGE (a b : ExtractedInfo) : Prop := b.extracted_at ≤ a.extracted_at

instance : DecidableRel recGE := fun a b => by
  unfold recGE; infer_instance

instance : IsTotal ExtractedInfo recGE :=
  ⟨fun a b => Nat.le_total b.extracted_at a.extracted_at⟩

instance : IsTrans ExtractedInfo recGE :=
  ⟨fun _ _ _ hab hbc => Nat.le_trans hbc hab⟩

/-- The queryset
`ExtractedInformation.objects.filter(document__user=user).order_by('-extracted_at')`:
this user's records, sorted newest-first. -/
def userRecords (u : Nat) (db : List ExtractedInfo) : List ExtractedInfo :=
  List.insertionSort recGE (db.filter (fun r => r.user = u))

/-- The merged profile `user_info` that `generate_response_task` builds
for the user of the question's application and passes to
`GeminiService.generate_response`. -/
def mergedProfile (u : Nat) (db : List ExtractedInfo) : Option (List (String × Content)) :=
  buildUserInfo (userRecords u db)

/-- The fragments of one `data_type` among a record list, in iteration
order. -/
def fragsOf (d : String) (rs : List ExtractedInfo) : List Content :=
  (rs.filter (fun r => r.data_type = d)).map (fun r => r.content)

/-- The items of a list-valued content (empty for non-lists). -/
def itemsOf : Content → List Item
  | .list xs => xs
  | _ => []

/-- Concatenation of all list fragments of one `data_type`, in iteration
order. -/
def concatFrags (d : String) (rs : List ExtractedInfo) : List Item :=
  ((rs.filter (fun r => r.data_type = d)).map (fun r => itemsOf r.content)).flatten

/-- The string of a string-valued content (empty for non-strings). -/
def strOf : Content → String
  | .str s => s
  | _ => ""

/-- The string fragments of one `data_type`, in iteration order. -/
def strFragsOf (d : String) (rs : List ExtractedInfo) : List String :=
  (rs.filter (fun r => r.data_type = d)).map (fun r => strOf r.content)

/-- Left fold of `f"{existing}\n\n{content}"` over later fragments,
starting from the first kept value. -/
def joinBlank (s : String) (ts : List String) : String :=
  ts.foldl (fun a b => a ++ "\n\n" ++ b) s

/-- Whether a content value is a Python `list`. -/
def isListContent : Content → Bool
  | .list _ => true
  | _ => false

/-- Whether a content value is a Python `str`. -/
def isStrContent : Content → Bool
  | .str _ => true
  | _ => false

/-! ## Python string primitives

Python strings are sequences of code points; Lean's `String.data` gives
exactly that sequence, so the Python string operations the pipeline uses
are modelled as plain list operations on `String.data`. -/

/-- Python `str.strip()` with no argument: remove leading and trailing
whitespace. -/
def pyStrip (s : String) : String :=
  String.mk (((s.data.dropWhile Char.isWhitespace).reverse.dropWhile Char.isWhitespace).reverse)

/-- Whether `pre` is a prefix of `l` (spelled out so it evaluates by
kernel reduction). -/
def listLeads : List Char → List Char → Bool
  | [], _ => true
  | _ :: _, [] => false
  | a :: as, b :: bs => a = b && listLeads as bs

/-- Python `str.startswith(pre)`. -/
def pyStartsWith (s pre : String) : Bool := listLeads pre.data s.data

/-- Python `str.endswith(suf)`. -/
def pyEndsWith (s suf : String) : Bool := listLeads suf.data.reverse s.data.reverse

/-- Python slicing `s[n:]`. -/
def pyDrop (s : String) (n : Nat) : String := String.mk (s.data.drop n)

/-- Python slicing `s[:-n]` (for `0 < n ≤ len(s)`). -/
def pyDropRight (s : String) (n : Nat) : String :=
  String.mk (s.data.take (s.data.length - n))

/-- Python slicing `s[:n]`. -/
def pyTake (s : String) (n : Nat) : String := String.mk (s.data.take n)

/-- Python `str.lower()`. -/
def pyLower (s : String) : String := String.mk (s.data.map Char.toLower)

/-- The characters after the last occurrence of `ch`, when `ch` occurs. -/
def afterLast (ch : Char) : List Char → Option (List Char)
  | [] => none
  | c :: cs =>
      match afterLast ch cs with
      | some suf => some suf
      | none => if c = ch then some cs else none

/-! ## Document parser (`services/document_parser.py`) -/

/-- The extension component of Python's `os.path.splitext`, applied to a
POSIX path: the suffix starting at the last `.` of the basename, except
that leading dots of the basename never begin an extension
(`splitext('.bashrc') = ('.bashrc', '')`, `splitext('a.') = ('a', '.')`). -/
def extOf (path : String) : String :=
  let base :=
    match afterLast '/' path.data with
    | some b => b
    | none => path.data
  let rest := base.dropWhile (fun c => c = '.')
  match afterLast '.' rest with
  | some suf => String.mk ('.' :: suf)
  | none => ""

/-- The dictionary returned by every `DocumentParser` method: keys
`success`, `text` and `error`. -/
structure ParseResult where
  success : Bool
  text : String
  error : String
deriving DecidableEq, Repr

/-- The `full_text` computed by `DocumentParser._parse_pdf`: the per-page
`page.extract_text()` results (`none` models Python `None`), keeping the
truthy ones, joined with `'\n'`. -/
def pdfFullText (pages : List (Option String)) : String :=
  String.intercalate "\n" (pages.filterMap (fun t =>
    match t with
    | some s => if s = "" then none else some s
    | none => none))

/-- The `full_text` computed by `DocumentParser._parse_docx`: the
paragraph texts and the flattened table cell texts with non-blank text,
joined with `'\n'`. -/
def docxFullText (paragraphs cells : List String) : String :=
  String.intercalate "\n"
    (paragraphs.filter (fun p => ¬ pyStrip p = "") ++ cells.filter (fun c => ¬ pyStrip c = ""))

/-- `DocumentParser._parse_pdf`, with the pdfplumber extraction abstracted
as the list of per-page `page.extract_text()` results. An
empty-or-whitespace `full_text` is a failure. -/
def parse_pdf (pages : List (Option String)) : ParseResult :=
  let full_text := pdfFullText pages
  if pyStrip full_text = "" then
    { success := false, text := "", error := "No text could be extracted from PDF" }
  else
    { success := true, text := full_text, error := "" }

/-- `DocumentParser._parse_docx`, with python-docx abstracted as the
paragraph texts and the flattened table cell texts. An
empty-or-whitespace `full_text` is a failure. -/
def parse_docx (paragraphs cells : List String) : ParseResult :=
  let full_text := docxFullText paragraphs cells
  if pyStrip full_text = "" then
    { success := false, text := "", error := "No text could be extracted from DOCX" }
  else
    { success := true, text := full_text, error := "" }

/-- `DocumentParser._parse_image`, with `pytesseract.image_to_string`
abstracted as the OCR text. An empty-or-whitespace result is a failure. -/
def parse_image (ocrText : String) : ParseResult :=
  if pyStrip ocrText = "" then
    { success := false, text := "",
      error := "No text could be extracted from image (OCR found nothing)" }
  else
    { success := true, text := ocrText, error := "" }

/-- `DocumentParser._parse_txt`, with the file read abstracted as the
decoded content: it always succeeds, even on empty content. -/
def parse_txt (content : String) : ParseResult :=
  { success := true, text := content, error := "" }

/-- The raw data the external libraries would deliver for a file,
abstracting pdfplumber, python-docx, pytesseract and the filesystem
read. -/
structure RawFile where
  pdfPages : List (Option String)
  docxParagraphs : List String
  docxCells : List String
  imageText : String
  txtContent : String

/-- `DocumentParser.parse_document`: lowercase the `os.path.splitext`
extension and route to the matching sub-parser; any other extension
yields the `Unsupported file type` failure. The `document_type` argument
is accepted but never used for routing, exactly as in the source. -/
def parse_document (raw : RawFile) (file_path document_type : String) : ParseResult :=
  let extension := pyLower (extOf file_path)
  if extension = ".pdf" then parse_pdf raw.pdfPages
  else if extension ∈ [".docx", ".doc"] then parse_docx raw.docxParagraphs raw.docxCells
  else if extension ∈ [".png", ".jpg", ".jpeg", ".tiff", ".bmp"] then parse_image raw.imageText
  else if extension = ".txt" then parse_txt raw.txtContent
  else
    { success := false, text := "", error := "Unsupported file type: " ++ extension }

/-! ## Gemini client (`services/gemini_service.py`) -/

/-- The markdown fence stripping both `GeminiService.extract_questions_from_content`
and `GeminiService.extract_document_information` apply to the model reply
before `json.loads`: strip whitespace, drop a leading 7-character
` ```json ` fence, then a leading 3-character ` ``` ` fence, then a
trailing ` ``` ` fence, then strip whitespace again. -/
def stripFences (s : String) : String :=
  let t := pyStrip s
  let t := if pyStartsWith t "```json" then pyDrop t 7 else t
  let t := if pyStartsWith t "```" then pyDrop t 3 else t
  let t := if pyEndsWith t "```" then pyDropRight t 3 else t
  pyStrip t

/-- `GeminiService.extract_questions_from_content`, with the API call
abstracted as `api` (`.error` models any exception raised while producing
`response.text`, `.ok t` the reply text) and Python's `json.loads`
abstracted as `json_loads` (`none` models a `JSONDecodeError`; `α` is
whatever Python object the JSON decodes to). Both exception handlers
return the empty list `[]`, modelled by `emptyList`. -/
def extract_questions_from_content {α : Type} (emptyList : α)
    (json_loads : String → Option α) (api : Except String String) : α :=
  match api with
  | .error _ => emptyList
  | .ok text =>
      match json_loads (stripFences text) with
      | some v => v
      | none => emptyList

/-- `GeminiService.extract_document_information`, abstracted exactly like
`extract_questions_from_content`; its exception handlers return the empty
dict `{}`, modelled by `emptyDict`. -/
def extract_document_information {α : Type} (emptyDict : α)
    (json_loads : String → Option α) (api : Except String String) : α :=
  match api with
  | .error _ => emptyDict
  | .ok text =>
      match json_loads (stripFences text) with
      | some v => v
      | none => emptyDict

/-- The prompt f-string of `GeminiService.extract_questions_from_content`:
the page content is embedded truncated to its first 8000 characters
(`content[:8000]`). -/
def questionsPrompt (application_type content : String) : String :=
  "\n        Analyze this " ++ application_type ++
  " application page and extract all questions that applicants need to answer.\n\n        Page Content:\n        "
  ++ pyTake content 8000 ++
  "  # Limit content to avoid token limits\n\n        Return a JSON array of questions with this exact structure:\n        [\n            \x7b\n                \"question_text\": \"the full question text\",\n                \"question_type\": \"short_answer|essay|experience|education|skills|custom\",\n                \"is_required\": true|false\n            \x7d\n        ]\n\n        Guidelines:\n        - Only include actual questions, not general descriptions\n        - Classify question types accurately:\n          * short_answer: Brief responses (1-2 sentences)\n          * essay: Long-form responses (paragraphs)\n          * experience: Work experience questions\n          * education: Education background questions\n          * skills: Technical or soft skills questions\n          * custom: Other types of questions\n        - Mark questions as required if explicitly stated or if they seem mandatory\n        - If no questions are found, return an empty array []\n\n        Return ONLY the JSON array, no additional text.\n        "

/-- The prompt f-string of `GeminiService.extract_document_information`:
the document text is embedded truncated to its first 10000 characters
(`text_content[:10000]`). -/
def documentInfoPrompt (document_type text_content : String) : String :=
  "\n        You are an expert at extracting information from " ++ document_type ++
  " documents.\n        Carefully analyze the document below and extract ALL available information.\n\n        Document Text:\n        "
  ++ pyTake text_content 10000 ++
  "\n\n        Return a JSON object with these exact fields:\n        \x7b\n            \"name\": \"full name or null\",\n            \"email\": \"email address or null\",\n            \"phone\": \"phone number or null\",\n            \"education\": [\n                \x7b\n                    \"institution\": \"school/university name\",\n                    \"degree\": \"degree type (BS, MS, PhD, etc.)\",\n                    \"field\": \"major/field of study\",\n                    \"graduation_year\": \"year\",\n                    \"gpa\": \"GPA if mentioned\",\n                    \"achievements\": \"honors, awards, relevant coursework\"\n                \x7d\n            ],\n            \"experience\": [\n                \x7b\n                    \"company\": \"company/organization name\",\n                    \"title\": \"job title/position\",\n                    \"duration\": \"time period (e.g., Jan 2020 - Dec 2021)\",\n                    \"responsibilities\": [\"responsibility 1\", \"responsibility 2\", \"...\"],\n                    \"achievements\": \"key accomplishments or metrics\"\n                \x7d\n            ],\n            \"skills\": [\"technical skill 1\", \"technical skill 2\", \"soft skill 1\", \"...\"],\n            \"certifications\": [\"certification name 1\", \"certification name 2\", \"...\"],\n            \"projects\": [\n                \x7b\n                    \"name\": \"project name\",\n                    \"description\": \"brief description\",\n                    \"technologies\": \"technologies used\"\n                \x7d\n            ],\n            \"languages\": [\"language 1\", \"language 2\", \"...\"],\n            \"summary\": \"brief professional summary or objective from the document\"\n        \x7d\n\n        CRITICAL INSTRUCTIONS:\n        - Extract EVERY piece of information you can find\n        - If a field has no data, use null for strings or [] for arrays\n        - For education: include ALL schools, degrees, and academic achievements\n        - For experience: include ALL jobs, internships, volunteer work, and their responsibilities\n        - For skills: include technical skills, programming languages, tools, frameworks, AND soft skills\n        - For projects: include personal projects, academic projects, research\n        - Be thorough and detailed - this information will be used to answer application questions\n        - Return ONLY the JSON object, no markdown, no explanations\n        "

/-! ## Retry decorator (`core/tasks.py`) -/

/-- Outcome of one execution of a Celery task: a return value, a retry
scheduled to run after a countdown in seconds, or a final failure that
re-raises the exception. -/
inductive TaskOutcome (α : Type) where
  | ok (a : α)
  | retryAfter (countdown : Nat)
  | failed
deriving DecidableEq, Repr

/-- Celery's `Task.retry(exc=..., countdown=..., max_retries=...)`,
modelled from its documented semantics: while the current retry count of
the request is below `max_retries` it schedules another run of the task
after `countdown` seconds; once retries are exhausted it raises instead
of retrying (the wrapper in `exponential_backoff_retry` catches
`MaxRetriesExceededError` and re-raises, so either way the execution ends
in failure). -/
def celery_retry (α : Type) (retries max_retries countdown : Nat) : TaskOutcome α :=
  if retries < max_retries then .retryAfter countdown else .failed

/-- The wrapper produced by `exponential_backoff_retry(max_retries, base_delay)`
(`core/tasks.py`): run the body; on success return its value; on any
exception compute `countdown = base_delay * 2 ** self.request.retries`
and call `self.retry` with it. `body` abstracts the wrapped function
(`.error` models an exception), `retries` is `self.request.retries`. -/
def exponential_backoff_retry {α : Type} (max_retries base_delay : Nat)
    (body : Except String α) (retries : Nat) : TaskOutcome α :=
  match body with
  | .ok a => .ok a
  | .error _ => celery_retry α retries max_retries (base_delay * 2 ^ retries)

/-! ## Document processing pipeline (`documents/tasks.py`) -/

/-- The two `Document` fields written by `process_document_task`. -/
structure DocState where
  is_processed : Bool
  processed_at : Option Nat
deriving DecidableEq, Repr

/-- The observable outcome of one run of `process_document_task`:
whether the task raised, whether `extract_information_task` was enqueued
(`apply_async`), and the document's final persisted state (`none` when no
such document exists). -/
structure ProcOutcome where
  raised : Bool
  enqueuedExtraction : Bool
  doc : Option DocState
deriving DecidableEq, Repr

/-- The `except Exception` handler of `process_document_task`: re-fetch
the document and persist `is_processed = False` (only that field is
saved, `processed_at` is untouched). -/
def markUnprocessed (d : DocState) : DocState := { d with is_processed := false }

/-- The control flow of `process_document_task` (`documents/tasks.py`),
with the database and services abstracted: `docExists` models whether
`Document.objects.get` succeeds, `hasFile` whether the document has a
file or file content was passed, `parse` the `parse_document` result,
`enqueueFails` an exception raised by `apply_async` before the subtask is
queued, and `saveFails` an exception raised after enqueueing (e.g. by
`document.save`). `doc0` is the document's state before the run and `now`
the value of `timezone.now()`. Every failing path flows through the
`except Exception` handler (which persists `is_processed = False`) and
re-raises; the success path enqueues the extraction subtask and persists
`is_processed = True` with `processed_at = now`. -/
def process_document_task (docExists hasFile : Bool) (parse : ParseResult)
    (enqueueFails saveFails : Bool) (doc0 : DocState) (now : Nat) : ProcOutcome :=
  if docExists = false then
    { raised := true, enqueuedExtraction := false, doc := none }
  else if hasFile = false then
    { raised := true, enqueuedExtraction := false, doc := some (markUnprocessed doc0) }
  else if parse.success = false then
    { raised := true, enqueuedExtraction := false, doc := some (markUnprocessed doc0) }
  else if enqueueFails then
    { raised := true, enqueuedExtraction := false, doc := some (markUnprocessed doc0) }
  else if saveFails then
    { raised := true, enqueuedExtraction := true, doc := some (markUnprocessed doc0) }
  else
    { raised := false, enqueuedExtraction := true,
      doc := some { is_processed := true, processed_at := some now } }

/-! ## Association list lemmas -/

theorem lookupDT_setDT_self (m : List (String × Content)) (d : String) (c : Content) :
    lookupDT (setDT m d c) d = some c := by
  induction m with
  | nil => simp [setDT, lookupDT]
  | cons kv rest ih =>
      obtain ⟨k, v⟩ := kv
      by_cases h : k = d <;> simp [setDT, lookupDT, h, ih]

theorem lookupDT_setDT_other (m : List (String × Content)) (d d' : String) (c : Content)
    (h : d' ≠ d) : lookupDT (setDT m d' c) d = lookupDT m d := by
  induction m with
  | nil => simp [setDT, lookupDT, h]
  | cons kv rest ih =>
      obtain ⟨k, v⟩ := kv
      by_cases hk : k = d' <;> by_cases hd : k = d <;>
        simp_all [setDT, lookupDT]

theorem mergeStep_some_other (acc : List (String × Content)) (r : ExtractedInfo)
    (d : String) (h : r.data_type ≠ d) (acc' : List (String × Content))
    (hstep : mergeStep acc r = some acc') :
    lookupDT acc' d = lookupDT acc d := by
  rw [mergeStep] at hstep
  cases hl : lookupDT acc r.data_type with
  | none =>
      rw [hl] at hstep
      simp only [Option.some.injEq] at hstep
      rw [← hstep]
      exact lookupDT_setDT_other _ _ _ _ h
  | some ex =>
      rw [hl] at hstep
      dsimp only at hstep
      cases hmc : mergeContent r.data_type ex r.content with
      | none => rw [hmc] at hstep; simp at hstep
      | some c =>
          rw [hmc] at hstep
          simp only [Option.map_some', Option.some.injEq] at hstep
          rw [← hstep]
          exact lookupDT_setDT_other _ _ _ _ h

theorem concatFrags_cons (d : String) (r : ExtractedInfo) (rs : List ExtractedInfo) :
    concatFrags d (r :: rs) =
      (if r.data_type = d then itemsOf r.content else []) ++ concatFrags d rs := by
  by_cases h : r.data_type = d <;> simp [concatFrags, List.filter_cons, h]

/-! ## Fold lemmas for list-valued fragments -/

theorem foldlM_merge_complex (d : String) (hd : d ∉ simpleListTypes)
    (rs : List ExtractedInfo) :
    ∀ acc xs, lookupDT acc d = some (.list xs) →
    (∀ r ∈ rs, r.data_type = d → ∃ ys, r.content = .list ys) →
    ∀ m, rs.foldlM mergeStep acc = some m →
    lookupDT m d = some (.list (xs ++ concatFrags d rs)) := by
  induction rs with
  | nil =>
      intro acc xs hacc _ m hm
      simp only [List.foldlM_nil, pure, Option.some.injEq] at hm
      subst hm
      simpa [concatFrags] using hacc
  | cons r rs ih =>
      intro acc xs hacc hall m hm
      rw [List.foldlM_cons] at hm
      by_cases hr : r.data_type = d
      · obtain ⟨ys, hys⟩ := hall r (by simp) hr
        have hstep : mergeStep acc r = some (setDT acc d (.list (xs ++ ys))) := by
          rw [mergeStep, hr, hacc, hys]
          simp [mergeContent, hd]
        rw [hstep] at hm
        simp only [Option.bind_eq_bind, Option.some_bind] at hm
        have h2 := ih (setDT acc d (.list (xs ++ ys))) (xs ++ ys)
          (lookupDT_setDT_self acc d _)
          (fun r' hr' hd' => hall r' (by simp [hr']) hd') m hm
        simpa [concatFrags_cons, hr, hys, itemsOf, List.append_assoc] using h2
      · cases hstep : mergeStep acc r with
        | none => rw [hstep] at hm; simp at hm
        | some acc' =>
            rw [hstep] at hm
            simp only [Option.bind_eq_bind, Option.some_bind] at hm
            have hacc' : lookupDT acc' d = some (.list xs) :=
              (mergeStep_some_other acc r d hr acc' hstep).trans hacc
            have h2 := ih acc' xs hacc'
              (fun r' hr' hd' => hall r' (by simp [hr']) hd') m hm
            simpa [concatFrags_cons, hr] using h2

theorem foldlM_merge_complex_fresh (d : String) (hd : d ∉ simpleListTypes)
    (rs : List ExtractedInfo) :
    ∀ acc, lookupDT acc d = none →
    (∀ r ∈ rs, r.data_type = d → ∃ ys, r.content = .list ys) →
    (rs.filter (fun r => r.data_type = d) ≠ []) →
    ∀ m, rs.foldlM mergeStep acc = some m →
    lookupDT m d = some (.list (concatFrags d rs)) := by
  induction rs with
  | nil => intro acc _ _ hne; simp at hne
  | cons r rs ih =>
      intro acc hacc hall hne m hm
      rw [List.foldlM_cons] at hm
      by_cases hr : r.data_type = d
      · obtain ⟨ys, hys⟩ := hall r (by simp) hr
        have hstep : mergeStep acc r = some (setDT acc d (.list ys)) := by
          rw [mergeStep, hr, hacc, hys]
        rw [hstep] at hm
        simp only [Option.bind_eq_bind, Option.some_bind] at hm
        have h2 := foldlM_merge_complex d hd rs (setDT acc d (.list ys)) ys
          (lookupDT_setDT_self acc d _)
          (fun r' hr' hd' => hall r' (by simp [hr']) hd') m hm
        simpa [concatFrags_cons, hr, hys, itemsOf] using h2
      · cases hstep : mergeStep acc r with
        | none => rw [hstep] at hm; simp at hm
        | some acc' =>
            rw [hstep] at hm
            simp only [Option.bind_eq_bind, Option.some_bind] at hm
            have hacc' : lookupDT acc' d = none :=
              (mergeStep_some_other acc r d hr acc' hstep).trans hacc
            have hne' : rs.filter (fun r => r.data_type = d) ≠ [] := by
              simpa [List.filter_cons, hr] using hne
            have h2 := ih acc' hacc'
              (fun r' hr' hd' => hall r' (by simp [hr']) hd') hne' m hm
            simpa [concatFrags_cons, hr] using h2

theorem foldlM_merge_simple (d : String) (hd : d ∈ simpleListTypes)
    (rs : List ExtractedInfo) :
    ∀ acc xs, lookupDT acc d = some (.list xs) →
    (∀ r ∈ rs, r.data_type = d → ∃ ys, r.content = .list ys) →
    ∀ m, rs.foldlM mergeStep acc = some m →
    ∃ l, lookupDT m d = some (.list l) ∧
      (∀ a, a ∈ l ↔ a ∈ xs ∨ a ∈ concatFrags d rs) ∧
      (rs.filter (fun r => r.data_type = d) = [] → l = xs) ∧
      (rs.filter (fun r => r.data_type = d) ≠ [] → l.Nodup) := by
  induction rs with
  | nil =>
      intro acc xs hacc _ m hm
      simp only [List.foldlM_nil, pure, Option.some.injEq] at hm
      subst hm
      exact ⟨xs, hacc, by simp [concatFrags], fun _ => rfl, by simp⟩
  | cons r rs ih =>
      intro acc xs hacc hall m hm
      rw [List.foldlM_cons] at hm
      by_cases hr : r.data_type = d
      · obtain ⟨ys, hys⟩ := hall r (by simp) hr
        by_cases hh : (xs ++ ys).all pyHashable
        · have hstep : mergeStep acc r = some (setDT acc d (.list ((xs ++ ys).dedup))) := by
            rw [mergeStep, hr, hacc, hys]
            simp [mergeContent, hd, hh]
          rw [hstep] at hm
          simp only [Option.bind_eq_bind, Option.some_bind] at hm
          obtain ⟨l, hl, hmem, hempty, hnodup⟩ := ih (setDT acc d (.list ((xs ++ ys).dedup)))
            ((xs ++ ys).dedup) (lookupDT_setDT_self acc d _)
            (fun r' hr' hd' => hall r' (by simp [hr']) hd') m hm
          refine ⟨l, hl, ?_, ?_, ?_⟩
          · intro a
            rw [hmem a]
            simp [List.mem_dedup, concatFrags_cons, hr, hys, itemsOf, or_assoc]
          · intro habs
            exact absurd habs (by simp [List.filter_cons, hr])
          · intro _
            by_cases hfe : rs.filter (fun r => r.data_type = d) = []
            · rw [hempty hfe]
              exact List.nodup_dedup _
            · exact hnodup hfe
        · have hstep : mergeStep acc r = none := by
            rw [mergeStep, hr, hacc, hys]
            simp [mergeContent, hd, hh]
          rw [hstep] at hm
          simp at hm
      · cases hstep : mergeStep acc r with
        | none => rw [hstep] at hm; simp at hm
        | some acc' =>
            rw [hstep] at hm
            simp only [Option.bind_eq_bind, Option.some_bind] at hm
            have hacc' : lookupDT acc' d = some (.list xs) :=
              (mergeStep_some_other acc r d hr acc' hstep).trans hacc
            obtain ⟨l, hl, hmem, hempty, hnodup⟩ := ih acc' xs hacc'
              (fun r' hr' hd' => hall r' (by simp [hr']) hd') m hm
            refine ⟨l, hl, ?_, ?_, ?_⟩
            · intro a
              rw [hmem a]
              simp [concatFrags_cons, hr]
            · intro hfe
              exact hempty (by simpa [List.filter_cons, hr] using hfe)
            · intro hne
              exact hnodup (by simpa [List.filter_cons, hr] using hne)

theorem foldlM_merge_simple_fresh (d : String) (hd : d ∈ simpleListTypes)
    (rs : List ExtractedInfo) :
    ∀ acc, lookupDT acc d = none →
    (∀ r ∈ rs, r.data_type = d → ∃ ys, r.content = .list ys) →
    (rs.filter (fun r => r.data_type = d) ≠ []) →
    ∀ m, rs.foldlM mergeStep acc = some m →
    ∃ l, lookupDT m d = some (.list l) ∧
      (∀ a, a ∈ l ↔ a ∈ concatFrags d rs) ∧
      (2 ≤ (rs.filter (fun r => r.data_type = d)).length → l.Nodup) := by
  induction rs with
  | nil => intro acc _ _ hne; simp at hne
  | cons r rs ih =>
      intro acc hacc hall hne m hm
      rw [List.foldlM_cons] at hm
      by_cases hr : r.data_type = d
      · obtain ⟨ys, hys⟩ := hall r (by simp) hr
        have hstep : mergeStep acc r = some (setDT acc d (.list ys)) := by
          rw [mergeStep, hr, hacc, hys]
        rw [hstep] at hm
        simp only [Option.bind_eq_bind, Option.some_bind] at hm
        obtain ⟨l, hl, hmem, hempty, hnodup⟩ := foldlM_merge_simple d hd rs
          (setDT acc d (.list ys)) ys (lookupDT_setDT_self acc d _)
          (fun r' hr' hd' => hall r' (by simp [hr']) hd') m hm
        refine ⟨l, hl, ?_, ?_⟩
        · intro a
          rw [hmem a]
          simp [concatFrags_cons, hr, hys, itemsOf]
        · intro hlen
          by_cases hfe : rs.filter (fun r => r.data_type = d) = []
          · exfalso
            rw [List.filter_cons_of_pos (by simpa using hr), hfe] at hlen
            simp at hlen
          · exact hnodup hfe
      · cases hstep : mergeStep acc r with
        | none => rw [hstep] at hm; simp at hm
        | some acc' =>
            rw [hstep] at hm
            simp only [Option.bind_eq_bind, Option.some_bind] at hm
            have hacc' : lookupDT acc' d = none :=
              (mergeStep_some_other acc r d hr acc' hstep).trans hacc
            have hne' : rs.filter (fun r => r.data_type = d) ≠ [] := by
              simpa [List.filter_cons, hr] using hne
            obtain ⟨l, hl, hmem, hnodup⟩ := ih acc' hacc'
              (fun r' hr' hd' => hall r' (by simp [hr']) hd') hne' m hm
            refine ⟨l, hl, ?_, ?_⟩
            · intro a
              rw [hmem a]
              simp [concatFrags_cons, hr]
            · intro hlen
              exact hnodup (by simpa [List.filter_cons, hr] using hlen)

/-! ## Fold lemmas for string-valued fragments -/

theorem strFragsOf_cons (d : String) (r : ExtractedInfo) (rs : List ExtractedInfo) :
    strFragsOf d (r :: rs) =
      (if r.data_type = d then [strOf r.content] else []) ++ strFragsOf d rs := by
  by_cases h : r.data_type = d <;> simp [strFragsOf, List.filter_cons, h]

theorem foldlM_merge_keepfirst (d : String) (hd : d ≠ "summary")
    (rs : List ExtractedInfo) :
    ∀ acc s, lookupDT acc d = some (.str s) →
    (∀ r ∈ rs, r.data_type = d → ∃ t, r.content = .str t) →
    ∀ m, rs.foldlM mergeStep acc = some m →
    lookupDT m d = some (.str s) := by
  induction rs with
  | nil =>
      intro acc s hacc _ m hm
      simp only [List.foldlM_nil, pure, Option.some.injEq] at hm
      subst hm
      exact hacc
  | cons r rs ih =>
      intro acc s hacc hall m hm
      rw [List.foldlM_cons] at hm
      by_cases hr : r.data_type = d
      · obtain ⟨t, ht⟩ := hall r (by simp) hr
        have hstep : mergeStep acc r = some (setDT acc d (.str s)) := by
          rw [mergeStep, hr, hacc, ht]
          simp [mergeContent, hd]
        rw [hstep] at hm
        simp only [Option.bind_eq_bind, Option.some_bind] at hm
        exact ih (setDT acc d (.str s)) s (lookupDT_setDT_self acc d _)
          (fun r' hr' hd' => hall r' (by simp [hr']) hd') m hm
      · cases hstep : mergeStep acc r with
        | none => rw [hstep] at hm; simp at hm
        | some acc' =>
            rw [hstep] at hm
            simp only [Option.bind_eq_bind, Option.some_bind] at hm
            exact ih acc' s ((mergeStep_some_other acc r d hr acc' hstep).trans hacc)
              (fun r' hr' hd' => hall r' (by simp [hr']) hd') m hm

theorem foldlM_merge_keepfirst_fresh (d : String) (hd : d ≠ "summary")
    (rs : List ExtractedInfo) :
    ∀ acc, lookupDT acc d = none →
    (∀ r ∈ rs, r.data_type = d → ∃ t, r.content = .str t) →
    ∀ s₀ ss, strFragsOf d rs = s₀ :: ss →
    ∀ m, rs.foldlM mergeStep acc = some m →
    lookupDT m d = some (.str s₀) := by
  induction rs with
  | nil => intro acc _ _ s₀ ss hfr; simp [strFragsOf] at hfr
  | cons r rs ih =>
      intro acc hacc hall s₀ ss hfr m hm
      rw [List.foldlM_cons] at hm
      by_cases hr : r.data_type = d
      · obtain ⟨t, ht⟩ := hall r (by simp) hr
        have hs₀ : s₀ = t := by
          rw [strFragsOf_cons, if_pos hr, ht] at hfr
          simp [strOf] at hfr
          exact hfr.1.symm
        have hstep : mergeStep acc r = some (setDT acc d (.str t)) := by
          rw [mergeStep, hr, hacc, ht]
        rw [hstep] at hm
        simp only [Option.bind_eq_bind, Option.some_bind] at hm
        subst hs₀
        exact foldlM_merge_keepfirst d hd rs (setDT acc d (.str s₀)) s₀
          (lookupDT_setDT_self acc d _)
          (fun r' hr' hd' => hall r' (by simp [hr']) hd') m hm
      · cases hstep : mergeStep acc r with
        | none => rw [hstep] at hm; simp at hm
        | some acc' =>
            rw [hstep] at hm
            simp only [Option.bind_eq_bind, Option.some_bind] at hm
            have hfr' : strFragsOf d rs = s₀ :: ss := by
              simpa [strFragsOf_cons, hr] using hfr
            exact ih acc' ((mergeStep_some_other acc r d hr acc' hstep).trans hacc)
              (fun r' hr' hd' => hall r' (by simp [hr']) hd') s₀ ss hfr' m hm

theorem foldlM_merge_summary (rs : List ExtractedInfo) :
    ∀ acc s, lookupDT acc "summary" = some (.str s) →
    (∀ r ∈ rs, r.data_type = "summary" → ∃ t, r.content = .str t) →
    ∀ m, rs.foldlM mergeStep acc = some m →
    lookupDT m "summary" = some (.str (joinBlank s (strFragsOf "summary" rs))) := by
  induction rs with
  | nil =>
      intro acc s hacc _ m hm
      simp only [List.foldlM_nil, pure, Option.some.injEq] at hm
      subst hm
      simpa [strFragsOf, joinBlank] using hacc
  | cons r rs ih =>
      intro acc s hacc hall m hm
      rw [List.foldlM_cons] at hm
      by_cases hr : r.data_type = "summary"
      · obtain ⟨t, ht⟩ := hall r (by simp) hr
        have hstep : mergeStep acc r =
            some (setDT acc "summary" (.str (s ++ "\n\n" ++ t))) := by
          rw [mergeStep, hr, hacc, ht]
          simp [mergeContent]
        rw [hstep] at hm
        simp only [Option.bind_eq_bind, Option.some_bind] at hm
        have h2 := ih (setDT acc "summary" (.str (s ++ "\n\n" ++ t))) (s ++ "\n\n" ++ t)
          (lookupDT_setDT_self acc "summary" _)
          (fun r' hr' hd' => hall r' (by simp [hr']) hd') m hm
        rw [h2, strFragsOf_cons, if_pos hr, ht]
        simp [joinBlank, strOf]
      · cases hstep : mergeStep acc r with
        | none => rw [hstep] at hm; simp at hm
        | some acc' =>
            rw [hstep] at hm
            simp only [Option.bind_eq_bind, Option.some_bind] at hm
            have h2 := ih acc' s
              ((mergeStep_some_other acc r "summary" hr acc' hstep).trans hacc)
              (fun r' hr' hd' => hall r' (by simp [hr']) hd') m hm
            rw [h2, strFragsOf_cons, if_neg hr]
            simp

theorem foldlM_merge_summary_fresh (rs : List ExtractedInfo) :
    ∀ acc, lookupDT acc "summary" = none →
    (∀ r ∈ rs, r.data_type = "summary" → ∃ t, r.content = .str t) →
    ∀ s₀ ss, strFragsOf "summary" rs = s₀ :: ss →
    ∀ m, rs.foldlM mergeStep acc = some m →
    lookupDT m "summary" = some (.str (joinBlank s₀ ss)) := by
  induction rs with
  | nil => intro acc _ _ s₀ ss hfr; simp [strFragsOf] at hfr
  | cons r rs ih =>
      intro acc hacc hall s₀ ss hfr m hm
      rw [List.foldlM_cons] at hm
      by_cases hr : r.data_type = "summary"
      · obtain ⟨t, ht⟩ := hall r (by simp) hr
        rw [strFragsOf_cons, if_pos hr, ht] at hfr
        have hs₀ : s₀ = t ∧ ss = strFragsOf "summary" rs := by
          simp [strOf] at hfr
          exact ⟨hfr.1.symm, hfr.2.symm⟩
        obtain ⟨h₁, h₂⟩ := hs₀
        have hstep : mergeStep acc r = some (setDT acc "summary" (.str t)) := by
          rw [mergeStep, hr, hacc, ht]
        rw [hstep] at hm
        simp only [Option.bind_eq_bind, Option.some_bind] at hm
        have h2 := foldlM_merge_summary rs (setDT acc "summary" (.str t)) t
          (lookupDT_setDT_self acc "summary" _)
          (fun r' hr' hd' => hall r' (by simp [hr']) hd') m hm
        rw [h2, h₁, h₂]
      · cases hstep : mergeStep acc r with
        | none => rw [hstep] at hm; simp at hm
        | some acc' =>
            rw [hstep] at hm
            simp only [Option.bind_eq_bind, Option.some_bind] at hm
            have hfr' : strFragsOf "summary" rs = s₀ :: ss := by
              simpa [strFragsOf_cons, hr] using hfr
            exact ih acc' ((mergeStep_some_other acc r "summary" hr acc' hstep).trans hacc)
              (fun r' hr' hd' => hall r' (by simp [hr']) hd') s₀ ss hfr' m hm

theorem isListContent_iff (c : Content) : isListContent c = true ↔ ∃ ys, c = .list ys := by
  cases c <;> simp [isListContent]

theorem isStrContent_iff (c : Content) : isStrContent c = true ↔ ∃ s, c = .str s := by
  cases c <;> simp [isStrContent]

/-! ## Claim theorems -/

/-- C3: the knowledge merge is isolated per user. The profile that
`generate_response_task` builds for the question's user is a function of
that user's `ExtractedInformation` records alone: two database states
that agree on this user's records (and may differ arbitrarily in other
users' records) yield identical merged profiles, hence identical
generation prompts. -/
theorem merge_user_isolation (u : Nat) (db1 db2 : List ExtractedInfo)
    (h : db1.filter (fun r => r.user = u) = db2.filter (fun r => r.user = u)) :
    mergedProfile u db1 = mergedProfile u db2 := by
  unfold mergedProfile userRecords
  rw [h]

theorem merge_user_isolation_witness :
    mergedProfile 0
        [⟨0, 1, "skills", .list [.str "python"]⟩, ⟨1, 2, "skills", .list [.str "java"]⟩] =
      mergedProfile 0 [⟨0, 1, "skills", .list [.str "python"]⟩] :=
  merge_user_isolation 0 _ _ (by decide)

/-- C5: `extract_questions_from_content` and `extract_document_information`
tolerate malformed model output. On an API exception they return the
empty list / empty dict; on a reply whose fence-stripped text parses as
JSON they return the parsed value; on a reply whose fence-stripped text
is not valid JSON (`json.loads` fails) they return the empty
list / empty dict. As total Lean functions they propagate no exception. -/
theorem gemini_tolerates_malformed_output {α : Type} (emptyList emptyDict : α)
    (json_loads : String → Option α) (api : Except String String) :
    (∀ e, api = .error e →
      extract_questions_from_content emptyList json_loads api = emptyList ∧
      extract_document_information emptyDict json_loads api = emptyDict) ∧
    (∀ t, api = .ok t →
      (∀ v, json_loads (stripFences t) = some v →
        extract_questions_from_content emptyList json_loads api = v ∧
        extract_document_information emptyDict json_loads api = v) ∧
      (json_loads (stripFences t) = none →
        extract_questions_from_content emptyList json_loads api = emptyList ∧
        extract_document_information emptyDict json_loads api = emptyDict)) := by
  refine ⟨?_, ?_⟩
  · rintro e rfl
    exact ⟨rfl, rfl⟩
  · rintro t rfl
    refine ⟨?_, ?_⟩
    · rintro v hv
      simp [extract_questions_from_content, extract_document_information, hv]
    · rintro hn
      simp [extract_questions_from_content, extract_document_information, hn]

theorem gemini_tolerates_malformed_output_witness :
    extract_questions_from_content ([] : List Nat)
        (fun s => if s = "[1]" then some [1] else none) (.ok "```json\n[1]\n```") = [1] ∧
    extract_document_information ([] : List Nat)
        (fun s => if s = "[1]" then some [1] else none) (.ok "```json\n[1]\n```") = [1] := by
  have h := gemini_tolerates_malformed_output ([] : List Nat) []
    (fun s => if s = "[1]" then some [1] else none) (.ok "```json\n[1]\n```")
  exact (h.2 "```json\n[1]\n```" rfl).1 [1] (by decide)

/-- C6: the `exponential_backoff_retry(max_retries, base_delay)` wrapper
reacts to a failing execution with current retry count `k` by scheduling
the next attempt after `base_delay * 2 ^ k` seconds, and once
`max_retries` retries are exhausted (`k ≥ max_retries`) the task
re-raises instead of retrying again. -/
theorem retry_exponential_backoff (α : Type) (max_retries base_delay k : Nat) (e : String) :
    (k < max_retries →
      exponential_backoff_retry max_retries base_delay (Except.error e : Except String α) k =
        .retryAfter (base_delay * 2 ^ k)) ∧
    (max_retries ≤ k →
      exponential_backoff_retry max_retries base_delay (Except.error e : Except String α) k =
        .failed) := by
  constructor
  · intro h
    simp [exponential_backoff_retry, celery_retry, h]
  · intro h
    simp [exponential_backoff_retry, celery_retry, Nat.not_lt.mpr h]

theorem retry_exponential_backoff_witness :
    exponential_backoff_retry 3 60 (Except.error "boom" : Except String Nat) 1 =
        .retryAfter 120 ∧
    exponential_backoff_retry 3 60 (Except.error "boom" : Except String Nat) 3 = .failed := by
  have h1 := retry_exponential_backoff Nat 3 60 1 "boom"
  have h3 := retry_exponential_backoff Nat 3 60 3 "boom"
  exact ⟨by simpa using h1.1 (by decide), h3.2 (by decide)⟩

/-- C10: the prompt of `extract_questions_from_content` depends on the
page content only through its first 8000 characters, and the prompt of
`extract_document_information` depends on the document text only through
its first 10000 characters. -/
theorem prompt_truncation (application_type document_type c₁ c₂ t₁ t₂ : String) :
    (pyTake c₁ 8000 = pyTake c₂ 8000 →
      questionsPrompt application_type c₁ = questionsPrompt application_type c₂) ∧
    (pyTake t₁ 10000 = pyTake t₂ 10000 →
      documentInfoPrompt document_type t₁ = documentInfoPrompt document_type t₂) := by
  constructor
  · intro h
    unfold questionsPrompt
    rw [h]
  · intro h
    unfold documentInfoPrompt
    rw [h]

theorem prompt_truncation_witness :
    questionsPrompt "job" "page content" = questionsPrompt "job" "page content" ∧
    documentInfoPrompt "resume" "text" = documentInfoPrompt "resume" "text" := by
  have h := prompt_truncation "job" "resume" "page content" "page content" "text" "text"
  exact ⟨h.1 rfl, h.2 rfl⟩

/-- C7: pipeline ordering and failure marking of `process_document_task`.
The extraction subtask is enqueued only after parsing succeeded; the
document ends up marked processed (`is_processed = True` with
`processed_at` set) only when parsing succeeded and the task did not
raise; and whenever the task raises, any existing document has
`is_processed = False` persisted. -/
theorem process_document_failure_marking (docExists hasFile : Bool) (parse : ParseResult)
    (enqueueFails saveFails : Bool) (doc0 : DocState) (now : Nat) (o : ProcOutcome)
    (ho : o = process_document_task docExists hasFile parse enqueueFails saveFails doc0 now) :
    (o.enqueuedExtraction = true → parse.success = true) ∧
    (∀ d, o.doc = some d → d.is_processed = true →
      parse.success = true ∧ o.raised = false ∧ d.processed_at = some now) ∧
    (o.raised = true → ∀ d, o.doc = some d → d.is_processed = false) := by
  subst ho
  obtain ⟨ps, tx, er⟩ := parse
  obtain ⟨p0, t0⟩ := doc0
  cases docExists <;> cases hasFile <;> cases ps <;> cases enqueueFails <;> cases saveFails <;>
    simp [process_document_task, markUnprocessed]

theorem process_document_failure_marking_witness :
    (process_document_task true true ⟨false, "", "Failed to parse document"⟩ false false
        ⟨true, some 5⟩ 7).raised = true ∧
    (process_document_task true true ⟨false, "", "Failed to parse document"⟩ false false
        ⟨true, some 5⟩ 7).doc = some ⟨false, some 5⟩ ∧
    DocState.is_processed ⟨false, some 5⟩ = false := by
  have h := process_document_failure_marking true true ⟨false, "", "Failed to parse document"⟩
    false false ⟨true, some 5⟩ 7 _ rfl
  exact ⟨by decide, by decide, h.2.2 (by decide) ⟨false, some 5⟩ (by decide)⟩

/-- C4: `parse_document` routes on the lowercased `os.path.splitext`
extension of the file path: `.pdf` to the PDF extractor, `.docx`/`.doc`
to the DOCX extractor, `.png`/`.jpg`/`.jpeg`/`.tiff`/`.bmp` to the OCR
extractor, `.txt` to the raw text reader, and any other extension yields
`success = false`, empty text and an `Unsupported file type` error. It is
a total function on `ParseResult` (keys `success`, `text`, `error`), so
it never raises. -/
theorem parse_document_dispatch (raw : RawFile) (file_path document_type : String)
    (e : String) (he : e = pyLower (extOf file_path)) :
    (e = ".pdf" → parse_document raw file_path document_type = parse_pdf raw.pdfPages) ∧
    ((e = ".docx" ∨ e = ".doc") →
      parse_document raw file_path document_type = parse_docx raw.docxParagraphs raw.docxCells) ∧
    ((e = ".png" ∨ e = ".jpg" ∨ e = ".jpeg" ∨ e = ".tiff" ∨ e = ".bmp") →
      parse_document raw file_path document_type = parse_image raw.imageText) ∧
    (e = ".txt" → parse_document raw file_path document_type = parse_txt raw.txtContent) ∧
    (e ≠ ".pdf" → e ≠ ".docx" → e ≠ ".doc" → e ≠ ".png" → e ≠ ".jpg" → e ≠ ".jpeg" →
      e ≠ ".tiff" → e ≠ ".bmp" → e ≠ ".txt" →
      parse_document raw file_path document_type =
        { success := false, text := "", error := "Unsupported file type: " ++ e }) := by
  refine ⟨?_, ?_, ?_, ?_, ?_⟩
  · intro h
    simp [parse_document, ← he, h]
  · rintro (h | h) <;> simp [parse_document, ← he, h]
  · rintro (h | h | h | h | h) <;> simp [parse_document, ← he, h]
  · intro h
    simp [parse_document, ← he, h]
  · intro h1 h2 h3 h4 h5 h6 h7 h8 h9
    simp [parse_document, ← he, h1, h2, h3, h4, h5, h6, h7, h8, h9]

theorem parse_document_dispatch_witness :
    parse_document ⟨[some "page"], ["para"], ["cell"], "ocr", "raw"⟩ "upload/notes.xyz" "other" =
      { success := false, text := "", error := "Unsupported file type: .xyz" } := by
  have h := parse_document_dispatch ⟨[some "page"], ["para"], ["cell"], "ocr", "raw"⟩
    "upload/notes.xyz" "other" ".xyz" (by decide)
  have h2 := h.2.2.2.2 (by decide) (by decide) (by decide) (by decide) (by decide) (by decide)
    (by decide) (by decide) (by decide)
  rw [h2]
  decide

/-- C9: inconsistent empty-text handling across formats. For a `.pdf`,
`.docx`/`.doc` or image path, `parse_document` fails with a
`No text could be extracted` error whenever the extracted text is empty
or whitespace-only, but for a `.txt` path it succeeds unconditionally,
returning the raw file content even when that content is empty or
whitespace-only. -/
theorem empty_text_handling (raw : RawFile) (file_path document_type : String)
    (e : String) (he : e = pyLower (extOf file_path)) :
    (e = ".pdf" → pyStrip (pdfFullText raw.pdfPages) = "" →
      parse_document raw file_path document_type =
        { success := false, text := "", error := "No text could be extracted from PDF" }) ∧
    ((e = ".docx" ∨ e = ".doc") → pyStrip (docxFullText raw.docxParagraphs raw.docxCells) = "" →
      parse_document raw file_path document_type =
        { success := false, text := "", error := "No text could be extracted from DOCX" }) ∧
    ((e = ".png" ∨ e = ".jpg" ∨ e = ".jpeg" ∨ e = ".tiff" ∨ e = ".bmp") →
      pyStrip raw.imageText = "" →
      parse_document raw file_path document_type =
        { success := false, text := "",
          error := "No text could be extracted from image (OCR found nothing)" }) ∧
    (e = ".txt" →
      (parse_document raw file_path document_type).success = true ∧
      (parse_document raw file_path document_type).text = raw.txtContent) := by
  refine ⟨?_, ?_, ?_, ?_⟩
  · intro h hempty
    simp [parse_document, ← he, h, parse_pdf, hempty]
  · rintro (h | h) hempty <;> simp [parse_document, ← he, h, parse_docx, hempty]
  · rintro (h | h | h | h | h) hempty <;> simp [parse_document, ← he, h, parse_image, hempty]
  · intro h
    simp [parse_document, ← he, h, parse_txt]

theorem empty_text_handling_witness :
    parse_document ⟨[none, some ""], [], [], "", "  "⟩ "cv.pdf" "resume" =
      { success := false, text := "", error := "No text could be extracted from PDF" } ∧
    (parse_document ⟨[none, some ""], [], [], "", "  "⟩ "notes.txt" "other").success = true ∧
    (parse_document ⟨[none, some ""], [], [], "", "  "⟩ "notes.txt" "other").text = "  " := by
  have h1 := empty_text_handling ⟨[none, some ""], [], [], "", "  "⟩ "cv.pdf" "resume"
    ".pdf" (by decide)
  have h2 := empty_text_handling ⟨[none, some ""], [], [], "", "  "⟩ "notes.txt" "other"
    ".txt" (by decide)
  exact ⟨h1.1 rfl (by decide), (h2.2.2.2 rfl).1, (h2.2.2.2 rfl).2⟩

/-- C1 counterexample: the claim that the merged profile maps a simple
list type to the distinct elements of the user's fragments with no
element appearing twice fails three ways. First, a user with a single
`'skills'` fragment holding an internal duplicate: the first occurrence
of a `data_type` is stored as-is (`user_info[data_type] = content`) and
`list(set(...))` deduplication only runs when a second fragment of the
same type is merged, so the profile lists `"python"` twice. Second, a
user whose most recent `'skills'` fragment is string-valued: the merge
keeps the string, so the profile does not map `'skills'` to a list at
all. Third, a user with two `'skills'` fragments of dict elements:
`list(set(existing + content))` raises `TypeError` on the unhashable
dicts, `generate_response_task` raises, and no profile is built. -/
theorem merge_simple_single_fragment_keeps_duplicates :
    (mergedProfile 0 [⟨0, 0, "skills", .list [.str "python", .str "python"]⟩] =
        some [("skills", .list [.str "python", .str "python"])] ∧
      ¬ ([Item.str "python", Item.str "python"].Nodup)) ∧
    mergedProfile 0
        [⟨0, 1, "skills", .str "communication"⟩, ⟨0, 0, "skills", .list [.str "python"]⟩] =
      some [("skills", .str "communication")] ∧
    mergedProfile 0
        [⟨0, 1, "skills", .list [.obj [("name", "AWS")]]⟩,
         ⟨0, 0, "skills", .list [.obj [("name", "GCP")]]⟩] = none := by
  exact ⟨⟨by decide, by decide⟩, by decide, by decide⟩

/-- C1 (amended): for a data type in `'skills'`, `'certifications'`,
`'languages'` all of whose fragments for this user are list-valued,
whenever `generate_response_task` builds a profile at all (merging two
such fragments raises `TypeError` when any element is an unhashable
dict), the profile maps the data type to a list containing exactly the
distinct elements of all those fragments; the list is duplicate-free
whenever at least two fragments were merged, while a lone fragment is
stored as-is, so its internal duplicates survive. -/
theorem merge_dedups_simple_lists (u : Nat) (db : List ExtractedInfo) (d : String)
    (hd : d = "skills" ∨ d = "certifications" ∨ d = "languages")
    (hall : ∀ r ∈ userRecords u db, r.data_type = d → isListContent r.content = true)
    (hne : (userRecords u db).filter (fun r => r.data_type = d) ≠ []) :
    ∀ m, mergedProfile u db = some m →
    ∃ l, lookupDT m d = some (.list l) ∧
      (∀ a, a ∈ l ↔ a ∈ concatFrags d (userRecords u db)) ∧
      (2 ≤ ((userRecords u db).filter (fun r => r.data_type = d)).length → l.Nodup) := by
  intro m hm
  have hd' : d ∈ simpleListTypes := by
    rcases hd with rfl | rfl | rfl <;> decide
  have hall' : ∀ r ∈ userRecords u db, r.data_type = d → ∃ ys, r.content = .list ys :=
    fun r hr hdt => (isListContent_iff r.content).mp (hall r hr hdt)
  exact foldlM_merge_simple_fresh d hd' (userRecords u db) [] rfl hall' hne m
    (by simpa [mergedProfile, buildUserInfo] using hm)

theorem merge_dedups_simple_lists_witness :
    ∃ l,
      lookupDT [("skills", Content.list [.str "a", .str "b", .str "c"])] "skills" =
        some (.list l) ∧
      (∀ a, a ∈ l ↔ a ∈ concatFrags "skills" (userRecords 0
        [⟨0, 2, "skills", .list [.str "a", .str "b"]⟩,
         ⟨0, 1, "skills", .list [.str "b", .str "c"]⟩])) ∧
      l.Nodup := by
  obtain ⟨l, h1, h2, h3⟩ := merge_dedups_simple_lists 0
    [⟨0, 2, "skills", .list [.str "a", .str "b"]⟩,
     ⟨0, 1, "skills", .list [.str "b", .str "c"]⟩]
    "skills" (Or.inl rfl) (by decide) (by decide)
    [("skills", Content.list [.str "a", .str "b", .str "c"])] (by decide)
  exact ⟨l, h1, h2, h3 (by decide)⟩

/-- C2 counterexample: a user with two list-valued `'education'`
fragments and a more recently extracted string-valued `'education'`
fragment satisfies the claim's premise, but the merge stores the string
first and both list fragments hit the keep-existing branch, so the
profile maps `'education'` to the string, not to the concatenation of
the list fragments. -/
theorem merge_complex_mixed_fragment_counterexample :
    mergedProfile 0
        [⟨0, 2, "education", .str "Harvard"⟩,
         ⟨0, 1, "education", .list [.obj [("institution", "MIT")]]⟩,
         ⟨0, 0, "education", .list [.obj [("institution", "CMU")]]⟩] =
      some [("education", .str "Harvard")] ∧
    (Content.str "Harvard" ≠
      Content.list [.obj [("institution", "MIT")], .obj [("institution", "CMU")]]) := by
  exact ⟨by decide, by decide⟩

/-- C2 (amended): for a data type in `'education'`, `'experience'`,
`'projects'` all of whose fragments for this user are list-valued, with
at least two such fragments, whenever `generate_response_task` builds a
profile at all, the profile maps the data type to the concatenation of
all those fragments in iteration order — and the iteration order is
newest extraction first (`order_by('-extracted_at')`) — preserving every
entry including duplicates and losing none. -/
theorem merge_concatenates_complex_lists (u : Nat) (db : List ExtractedInfo) (d : String)
    (hd : d = "education" ∨ d = "experience" ∨ d = "projects")
    (hall : ∀ r ∈ userRecords u db, r.data_type = d → isListContent r.content = true)
    (htwo : 2 ≤ ((userRecords u db).filter (fun r => r.data_type = d)).length) :
    (∀ m, mergedProfile u db = some m →
      lookupDT m d = some (.list (concatFrags d (userRecords u db)))) ∧
    List.Sorted recGE (userRecords u db) := by
  have hd' : d ∉ simpleListTypes := by
    rcases hd with rfl | rfl | rfl <;> decide
  have hall' : ∀ r ∈ userRecords u db, r.data_type = d → ∃ ys, r.content = .list ys :=
    fun r hr hdt => (isListContent_iff r.content).mp (hall r hr hdt)
  have hne : (userRecords u db).filter (fun r => r.data_type = d) ≠ [] := by
    intro h0
    rw [h0] at htwo
    simp at htwo
  constructor
  · intro m hm
    exact foldlM_merge_complex_fresh d hd' (userRecords u db) [] rfl hall' hne m
      (by simpa [mergedProfile, buildUserInfo] using hm)
  · simpa [userRecords] using
      List.sorted_insertionSort recGE (db.filter (fun r => r.user = u))

theorem merge_concatenates_complex_lists_witness :
    lookupDT [("education", Content.list [.obj [("institution", "MIT")],
        .obj [("institution", "MIT")], .obj [("institution", "CMU")]])] "education" =
      some (.list (concatFrags "education" (userRecords 0
        [⟨0, 2, "education", .list [.obj [("institution", "MIT")]]⟩,
         ⟨0, 1, "education",
           .list [.obj [("institution", "MIT")], .obj [("institution", "CMU")]]⟩]))) := by
  have h := merge_concatenates_complex_lists 0
    [⟨0, 2, "education", .list [.obj [("institution", "MIT")]]⟩,
     ⟨0, 1, "education",
       .list [.obj [("institution", "MIT")], .obj [("institution", "CMU")]]⟩]
    "education" (Or.inl rfl) (by decide) (by decide)
  exact h.1 [("education", Content.list [.obj [("institution", "MIT")],
    .obj [("institution", "MIT")], .obj [("institution", "CMU")]])] (by decide)

/-- C8 counterexample: a user with two string-valued `'name'` fragments
and two more recently extracted list-valued `'name'` fragments satisfies
the claim's premise, but the two lists take the complex-list
concatenation branch (`'name'` is not in the simple dedup list), so the
profile maps `'name'` to the concatenated list — the value of no single
document — and neither string fragment is kept. -/
theorem merge_string_mixed_fragment_counterexample :
    mergedProfile 0
        [⟨0, 3, "name", .list [.str "A"]⟩, ⟨0, 2, "name", .list [.str "B"]⟩,
         ⟨0, 1, "name", .str "Carol"⟩, ⟨0, 0, "name", .str "Dan"⟩] =
      some [("name", .list [.str "A", .str "B"])] ∧
    (Content.list [.str "A", .str "B"] ≠ Content.str "Carol") ∧
    (Content.list [.str "A", .str "B"] ≠ Content.str "Dan") := by
  exact ⟨by decide, by decide, by decide⟩

/-- C8 (amended): for a data type all of whose fragments for this user
are string-valued, with at least two of them, whenever
`generate_response_task` builds a profile at all, the records are
iterated newest extraction first and for `'name'`, `'email'`, `'phone'`
the first (most recent) fragment wins, while for `'summary'` every later
fragment is appended to the kept value separated by a blank line
(`f"{existing}\n\n{content}"`). -/
theorem merge_string_fields (u : Nat) (db : List ExtractedInfo) (d : String)
    (hall : ∀ r ∈ userRecords u db, r.data_type = d → isStrContent r.content = true)
    (s₀ : String) (ss : List String)
    (hfr : strFragsOf d (userRecords u db) = s₀ :: ss) (hss : ss ≠ []) :
    ((d = "name" ∨ d = "email" ∨ d = "phone") →
      ∀ m, mergedProfile u db = some m → lookupDT m d = some (.str s₀)) ∧
    (d = "summary" →
      ∀ m, mergedProfile u db = some m →
        lookupDT m d = some (.str (joinBlank s₀ ss))) ∧
    List.Sorted recGE (userRecords u db) := by
  have hall' : ∀ r ∈ userRecords u db, r.data_type = d → ∃ t, r.content = .str t :=
    fun r hr hdt => (isStrContent_iff r.content).mp (hall r hr hdt)
  refine ⟨?_, ?_, ?_⟩
  · intro hd m hm
    have hds : d ≠ "summary" := by
      rcases hd with rfl | rfl | rfl <;> decide
    exact foldlM_merge_keepfirst_fresh d hds (userRecords u db) [] rfl hall' s₀ ss hfr m
      (by simpa [mergedProfile, buildUserInfo] using hm)
  · intro hd m hm
    subst hd
    exact foldlM_merge_summary_fresh (userRecords u db) [] rfl hall' s₀ ss hfr m
      (by simpa [mergedProfile, buildUserInfo] using hm)
  · simpa [userRecords] using
      List.sorted_insertionSort recGE (db.filter (fun r => r.user = u))

theorem merge_string_fields_witness :
    lookupDT [("name", Content.str "Alice"), ("summary", Content.str "new\n\nold")]
      "name" = some (.str "Alice") ∧
    lookupDT [("name", Content.str "Alice"), ("summary", Content.str "new\n\nold")]
      "summary" = some (.str (joinBlank "new" ["old"])) := by
  have h1 := merge_string_fields 0
    [⟨0, 3, "name", .str "Alice"⟩, ⟨0, 2, "name", .str "Bob"⟩,
     ⟨0, 3, "summary", .str "new"⟩, ⟨0, 2, "summary", .str "old"⟩]
    "name" (by decide) "Alice" ["Bob"] (by decide) (by decide)
  have h2 := merge_string_fields 0
    [⟨0, 3, "name", .str "Alice"⟩, ⟨0, 2, "name", .str "Bob"⟩,
     ⟨0, 3, "summary", .str "new"⟩, ⟨0, 2, "summary", .str "old"⟩]
    "summary" (by decide) "new" ["old"] (by decide) (by decide)
  exact ⟨h1.1 (Or.inl rfl)
      [("name", Content.str "Alice"), ("summary", Content.str "new\n\nold")] (by decide),
    h2.2.1 rfl
      [("name", Content.str "Alice"), ("summary", Content.str "new\n\nold")] (by decide)⟩
